import Mathlib

/-!
Verification development for the daily stock analysis repository.

Python strings are modelled as lists of Unicode code points (`PyStr`);
UTF-8 encoding and strict decoding are made explicit so that byte-budget
properties can be stated.  Machine side effects (HTTP calls to upstream
data sources, circuit-breaker bookkeeping, ledger writes) are modelled as
explicit event traces returned alongside the results.  Rational numbers
stand in for the floating-point price arithmetic of the pandas frames.
-/

/-- A Python `str`: a sequence of Unicode code points. -/
abbrev PyStr := List Char

/-- Build a `PyStr` from a Lean string literal. -/
def lit (s : String) : PyStr := s.data

/-- Python `str.strip()` (restricted to ASCII whitespace, which covers every
input exercised here). -/
def pyStrip (s : PyStr) : PyStr :=
  ((s.dropWhile Char.isWhitespace).reverse.dropWhile Char.isWhitespace).reverse

/-- Python `str.lower()` (ASCII letters). -/
def pyLower (s : PyStr) : PyStr := s.map Char.toLower

/-- Python `str.upper()` (ASCII letters). -/
def pyUpper (s : PyStr) : PyStr := s.map Char.toUpper

/-- Python `pat in s` (substring containment). -/
def isSubstr (pat : PyStr) : PyStr → Bool
  | [] => pat.isEmpty
  | s@(_ :: t) => pat.isPrefixOf s || isSubstr pat t

/-- Fueled worker for `pySplit`; the fuel is an upper bound on the number of
characters still to be consumed. -/
def pySplitGo (sep : PyStr) : Nat → PyStr → List PyStr
  | _, [] => [[]]
  | 0, s => [s]
  | fuel + 1, s@(c :: rest) =>
    if sep.isPrefixOf s then
      [] :: pySplitGo sep fuel (s.drop sep.length)
    else
      match pySplitGo sep fuel rest with
      | [] => [[c]]
      | seg :: segs => (c :: seg) :: segs

/-- Python `s.split(sep)` for a non-empty separator `sep`. -/
def pySplit (s sep : PyStr) : List PyStr :=
  if sep.isEmpty then [s] else pySplitGo sep s.length s

/-- Decimal digits of a natural number, most significant first. -/
def natToChars (n : Nat) : PyStr := Nat.toDigits 10 n

/-- UTF-8 bytes of one code point (given as a `Nat`). -/
def encCharN (v : Nat) : List Nat :=
  if v < 0x80 then [v]
  else if v < 0x800 then [0xC0 + v / 64, 0x80 + v % 64]
  else if v < 0x10000 then
    [0xE0 + v / 4096, 0x80 + v / 64 % 64, 0x80 + v % 64]
  else
    [0xF0 + v / 0x40000, 0x80 + v / 4096 % 64, 0x80 + v / 64 % 64, 0x80 + v % 64]

/-- Python `s.encode('utf-8')`, as a list of byte values. -/
def utf8Encode (s : PyStr) : List Nat := s.flatMap fun c => encCharN c.toNat

/-- Python `len(s.encode('utf-8'))`. -/
def utf8Len (s : PyStr) : Nat := (utf8Encode s).length

/-- Worker for `utf8Decode`, structurally recursive on a fuel that bounds
the number of bytes left (one unit is spent per decoded code point, and a
code point consumes at least one byte).  Continuation bytes are read
through `[i]?` so that the compiled match tree never inspects deeper list
structure than one cons. -/
def utf8DecodeGo : Nat → List Nat → Option PyStr
  | _, [] => some []
  | 0, _ :: _ => none
  | fuel + 1, b0 :: rest =>
    if b0 < 0x80 then
      (utf8DecodeGo fuel rest).map fun s => Char.ofNat b0 :: s
    else if b0 < 0xC2 then none
    else if b0 < 0xE0 then
      match rest[0]? with
      | some b1 =>
        if 0x80 ≤ b1 ∧ b1 < 0xC0 then
          (utf8DecodeGo fuel (rest.drop 1)).map fun s =>
            Char.ofNat ((b0 - 0xC0) * 64 + (b1 - 0x80)) :: s
        else none
      | none => none
    else if b0 < 0xF0 then
      match rest[0]?, rest[1]? with
      | some b1, some b2 =>
        if (0x80 ≤ b1 ∧ b1 < 0xC0) ∧ (0x80 ≤ b2 ∧ b2 < 0xC0)
            ∧ (b0 = 0xE0 → 0xA0 ≤ b1) ∧ (b0 = 0xED → b1 < 0xA0) then
          (utf8DecodeGo fuel (rest.drop 2)).map fun s =>
            Char.ofNat ((b0 - 0xE0) * 4096 + (b1 - 0x80) * 64 + (b2 - 0x80)) :: s
        else none
      | _, _ => none
    else if b0 < 0xF5 then
      match rest[0]?, rest[1]?, rest[2]? with
      | some b1, some b2, some b3 =>
        if (0x80 ≤ b1 ∧ b1 < 0xC0) ∧ (0x80 ≤ b2 ∧ b2 < 0xC0) ∧ (0x80 ≤ b3 ∧ b3 < 0xC0)
            ∧ (b0 = 0xF0 → 0x90 ≤ b1) ∧ (b0 = 0xF4 → b1 < 0x90) then
          (utf8DecodeGo fuel (rest.drop 3)).map fun s =>
            Char.ofNat ((b0 - 0xF0) * 0x40000 + (b1 - 0x80) * 4096
              + (b2 - 0x80) * 64 + (b3 - 0x80)) :: s
        else none
      | _, _, _ => none
    else none

/-- Python `bytes.decode('utf-8')`: strict UTF-8 decoding, rejecting lone
lead bytes, bad continuation bytes, truncated sequences, overlong forms,
surrogates and out-of-range code points; `none` models
`UnicodeDecodeError`. -/
def utf8Decode (bs : List Nat) : Option PyStr := utf8DecodeGo bs.length bs

/-- Python `l[:k]` on a byte list, including the negative-index convention. -/
def pySliceTo (l : List Nat) (k : Int) : List Nat :=
  if 0 ≤ k then l.take k.toNat else l.take (l.length - (-k).toNat)

/-- The walk-back loop of `NotificationService._truncate_to_bytes`: drop one
byte at a time until the byte prefix decodes. -/
def walkBackAux : Nat → List Nat → PyStr
  | 0, _ => []
  | fuel + 1, bs =>
    match utf8Decode bs with
    | some s => s
    | none => walkBackAux fuel bs.dropLast

/-- `NotificationService._truncate_to_bytes(text, max_bytes)`. -/
def truncate_to_bytes (text : PyStr) (maxBytes : Int) : PyStr :=
  let encoded := utf8Encode text
  if (encoded.length : Int) ≤ maxBytes then text
  else walkBackAux ((pySliceTo encoded maxBytes).length + 1) (pySliceTo encoded maxBytes)

/-- Round half to even (the rounding mode of `numpy`/`pandas .round`). -/
def roundHalfEven (q : ℚ) : ℤ :=
  if q - ⌊q⌋ < 1 / 2 then ⌊q⌋
  else if (1 : ℚ) / 2 < q - ⌊q⌋ then ⌊q⌋ + 1
  else if ⌊q⌋ % 2 = 0 then ⌊q⌋ else ⌊q⌋ + 1

/-- `pandas .round(2)`: round to two decimal places, half to even. -/
def round2 (q : ℚ) : ℚ := (roundHalfEven (q * 100) : ℚ) / 100

/-- A row of a normalized candle frame before `_clean_data`: the numeric
columns are `Option`-valued because `pd.to_numeric(…, errors='coerce')`
may produce NaN.  The `open` column is called `openP` (`open` is a Lean
keyword). -/
structure RawRow where
  date : Int
  openP : Option ℚ
  high : Option ℚ
  low : Option ℚ
  close : Option ℚ
  volume : Option ℚ
  amount : Option ℚ
  pct_chg : Option ℚ
deriving DecidableEq, Repr

/-- A row after `_clean_data`: rows whose `close` or `volume` was NaN have
been dropped. -/
structure Row where
  date : Int
  openP : Option ℚ
  high : Option ℚ
  low : Option ℚ
  close : ℚ
  volume : ℚ
  amount : Option ℚ
  pct_chg : Option ℚ
deriving DecidableEq, Repr

/-- A row after `_calculate_indicators`. -/
structure ERow where
  date : Int
  openP : Option ℚ
  high : Option ℚ
  low : Option ℚ
  close : ℚ
  volume : ℚ
  amount : Option ℚ
  pct_chg : Option ℚ
  ma5 : ℚ
  ma10 : ℚ
  ma20 : ℚ
  volume_ratio : ℚ
deriving DecidableEq, Repr

/-- `BaseFetcher._clean_data`: drop rows whose `close` or `volume` is NaN,
then sort rows by date ascending (`sort_values` is a stable sort; no
deduplication is performed). -/
def clean_data (raw : List RawRow) : List Row :=
  let kept := raw.filterMap fun r =>
    match r.close, r.volume with
    | some c, some v =>
      some { date := r.date, openP := r.openP, high := r.high, low := r.low,
             close := c, volume := v, amount := r.amount, pct_chg := r.pct_chg }
    | _, _ => none
  List.insertionSort (fun a b => a.date ≤ b.date) kept

/-- The window `pandas.rolling(window=w, min_periods=1)` sees at index `t`:
the last `min (t+1) w` of the first `t+1` values. -/
def windowLast (w : Nat) (xs : List ℚ) (t : Nat) : List ℚ :=
  (xs.take (t + 1)).drop (t + 1 - w)

/-- Arithmetic mean of a list of rationals. -/
def listMean (l : List ℚ) : ℚ := l.sum / l.length

/-- `rolling(window=w, min_periods=1).mean()` at index `t`. -/
def rollingMean (w : Nat) (xs : List ℚ) (t : Nat) : ℚ := listMean (windowLast w xs t)

/-- `BaseFetcher._calculate_indicators`: add MA5/MA10/MA20 and the volume
ratio, each rounded to two decimals.  `volume_ratio[t]` is
`volume[t] / mean(volume[t-5..t-1])`, and 1.0 at `t = 0` where the shifted
mean is NaN.  (A zero 5-day mean yields a float `inf` in pandas; in `ℚ` the
quotient is 0 — no claim below touches that corner.) -/
def calculate_indicators (rows : List Row) : List ERow :=
  let closes := rows.map (·.close)
  let vols := rows.map (·.volume)
  rows.enum.map fun p =>
    { date := p.2.date, openP := p.2.openP, high := p.2.high, low := p.2.low,
      close := p.2.close, volume := p.2.volume, amount := p.2.amount,
      pct_chg := p.2.pct_chg,
      ma5 := round2 (rollingMean 5 closes p.1),
      ma10 := round2 (rollingMean 10 closes p.1),
      ma20 := round2 (rollingMean 20 closes p.1),
      volume_ratio :=
        round2 (if p.1 = 0 then 1 else p.2.volume / rollingMean 5 vols (p.1 - 1)) }

/-- `BaseFetcher.get_daily_data`: raise when the raw frame is empty, else
normalize (fetcher-specific, abstracted as `normalize`), clean, and compute
indicators.  The wrapper exception text matches the two `DataFetchError`
layers of the source. -/
def BaseFetcher.get_daily_data {β : Type} (name code : PyStr) (rawDf : List β)
    (normalize : List β → List RawRow) : Except PyStr (List ERow) :=
  if rawDf.isEmpty then
    .error (lit "[" ++ name ++ lit "] " ++ code ++ lit ": [" ++ name
      ++ lit "] 未獲取到 " ++ code ++ lit " 的數據")
  else
    .ok (calculate_indicators (clean_data (normalize rawDf)))

/-- One data source as seen by `DataFetcherManager.get_daily_data`: a static
name, a priority, and the outcome of its `get_daily_data` call (either a
frame or the text of the exception it raised). -/
structure DailyFetcher (α : Type) where
  name : PyStr
  priority : Int
  fetch : Except PyStr (List α)

/-- `sorted(fetchers, key=lambda f: f.priority)` — a stable sort by
priority. -/
def sort_fetchers {α} (fs : List (DailyFetcher α)) : List (DailyFetcher α) :=
  List.insertionSort (fun f g => f.priority ≤ g.priority) fs

/-- The aggregated `DataFetchError` message built when every source fails. -/
def error_summary (code : PyStr) (errors : List PyStr) : PyStr :=
  lit "所有數據源獲取 " ++ code ++ lit " 失敗:\n" ++ List.intercalate (lit "\n") errors

/-- The failover loop of `DataFetcherManager.get_daily_data`: first
non-empty frame wins; an exception appends a per-source message; a source
that returns an empty frame without raising contributes no message. -/
def get_daily_data_go {α} (code : PyStr) :
    List (DailyFetcher α) → List PyStr → Except PyStr (List α × PyStr)
  | [], errors => .error (error_summary code errors)
  | f :: rest, errors =>
    match f.fetch with
    | .ok df => if df.isEmpty then get_daily_data_go code rest errors else .ok (df, f.name)
    | .error e =>
      get_daily_data_go code rest (errors ++ [lit "[" ++ f.name ++ lit "] 失敗: " ++ e])

/-- `DataFetcherManager.get_daily_data` over the priority-sorted fetchers. -/
def DataFetcherManager.get_daily_data {α} (code : PyStr) (fs : List (DailyFetcher α)) :
    Except PyStr (List α × PyStr) :=
  get_daily_data_go code (sort_fetchers fs) []

/-- `True` when the fetcher raised or produced an empty frame. -/
def failsOrEmptyB {α} (f : DailyFetcher α) : Bool :=
  match f.fetch with
  | .error _ => true
  | .ok df => df.isEmpty

/-- The per-source messages collected by the failover loop, in order. -/
def collect_errors {α} (fs : List (DailyFetcher α)) : List PyStr :=
  fs.filterMap fun f =>
    match f.fetch with
    | .error e => some (lit "[" ++ f.name ++ lit "] 失敗: " ++ e)
    | .ok _ => none

/-- ASCII uppercase letter test (`[A-Z]` of the source's regex). -/
def isUpperLetter (c : Char) : Bool := 'A' ≤ c && c ≤ 'Z'

/-- The optional `(\.[A-Z])?` suffix of the source regex: empty, or a dot
followed by exactly one capital letter. -/
def dotSuffixOk (b : PyStr) : Bool :=
  b.isEmpty || (decide (b.length = 2) && decide (b[0]? = some '.')
    && b[1]?.elim false isUpperLetter)

/-- Matcher for the source regex `^[A-Z]{1,5}(\.[A-Z])?$` of
`akshare_fetcher._is_us_code` (the optional suffix is a dot and exactly one
capital letter). -/
def matchUsShape (s : PyStr) : Bool :=
  let letters := s.takeWhile isUpperLetter
  decide (1 ≤ letters.length) && decide (letters.length ≤ 5)
    && dotSuffixOk (s.drop letters.length)

/-- `akshare_fetcher._is_us_code`: strip, uppercase, then match. -/
def is_us_code (code : PyStr) : Bool := matchUsShape (pyUpper (pyStrip code))

/-- The `(\.[A-Z]{1,2})?` suffix of the claim's regex: empty, or a dot
followed by one or two capital letters. -/
def dotSuffixOkSpec (b : PyStr) : Bool :=
  b.isEmpty || (decide (b.length = 2) && decide (b[0]? = some '.')
    && b[1]?.elim false isUpperLetter)
  || (decide (b.length = 3) && decide (b[0]? = some '.')
    && b[1]?.elim false isUpperLetter && b[2]?.elim false isUpperLetter)

/-- Modelled from the spec: the claim's regex `^[A-Z]{1,5}(\.[A-Z]{1,2})?$`
(a dot followed by one OR TWO capital letters), applied to the raw ticker —
written from the spec's words for comparison with `is_us_code`. -/
def matchUsShapeSpec (s : PyStr) : Bool :=
  let letters := s.takeWhile isUpperLetter
  decide (1 ≤ letters.length) && decide (letters.length ≤ 5)
    && dotSuffixOkSpec (s.drop letters.length)

/-- `akshare_fetcher._is_etf_code`: six characters starting with one of the
ETF prefixes. -/
def is_etf_code (code : PyStr) : Bool :=
  ((["51", "52", "56", "58", "15", "16", "18"].map lit).any fun p => p.isPrefixOf code)
    && decide (code.length = 6)

/-- Modelled from the spec: `UnifiedRealtimeQuote` lives in
`realtime_types.py`, which is not among the provided sources; per the spec
"a quote is *basically valid* iff `price` is present", only the `price`
field participates in the logic modelled here. -/
structure Quote where
  price : Option ℚ
deriving DecidableEq, Repr

/-- Modelled from the spec: `UnifiedRealtimeQuote.has_basic_data()` — true
iff the price is present. -/
def has_basic_data (q : Quote) : Bool := q.price.isSome

/-- One realtime-quote request issued to a fetcher (fetcher name, stock
code, optional sub-source variant). -/
structure QuoteEvent where
  fname : PyStr
  code : PyStr
  variant : Option PyStr
deriving DecidableEq, Repr

/-- A fetcher as seen by the realtime-quote failover: a name and, when the
Python object has a `get_realtime_quote` attribute, the outcome of calling
it (`.error` models a raised exception). -/
structure QuoteFetcher where
  name : PyStr
  quoteFn : Option (PyStr → Option PyStr → Except PyStr (Option Quote))

/-- The source-key dispatch table of `DataFetcherManager.get_realtime_quote`:
which fetcher (and sub-source variant) a configured source name selects. -/
def source_route (src : PyStr) : Option (PyStr × Option PyStr) :=
  if src = lit "efinance" then some (lit "EfinanceFetcher", none)
  else if src = lit "akshare_em" then some (lit "AkshareFetcher", some (lit "em"))
  else if src = lit "akshare_sina" then some (lit "AkshareFetcher", some (lit "sina"))
  else if src = lit "tencent" ∨ src = lit "akshare_qq" then
    some (lit "AkshareFetcher", some (lit "tencent"))
  else if src = lit "tushare" then some (lit "TushareFetcher", none)
  else none

/-- The non-US failover loop of `get_realtime_quote`: walk the configured
source priority, query the first matching fetcher per source, and return
the first quote that is present and basically valid.  The event list
records every request issued. -/
def realtime_loop (fetchers : List QuoteFetcher) (code : PyStr) :
    List PyStr → Option Quote × List QuoteEvent
  | [] => (none, [])
  | src :: rest =>
    match source_route (pyLower (pyStrip src)) with
    | none => realtime_loop fetchers code rest
    | some (fname, variant) =>
      match fetchers.find? fun f => f.name == fname with
      | none => realtime_loop fetchers code rest
      | some f =>
        match f.quoteFn with
        | none => realtime_loop fetchers code rest
        | some fn =>
          let ev : QuoteEvent := ⟨fname, code, variant⟩
          match fn code variant with
          | .ok (some q) =>
            if has_basic_data q then (some q, [ev])
            else
              let r := realtime_loop fetchers code rest
              (r.1, ev :: r.2)
          | .ok none =>
            let r := realtime_loop fetchers code rest
            (r.1, ev :: r.2)
          | .error _ =>
            let r := realtime_loop fetchers code rest
            (r.1, ev :: r.2)

/-- `DataFetcherManager.get_realtime_quote`: gate on the feature flag, route
US tickers exclusively to `YfinanceFetcher`, otherwise run the configured
priority loop. -/
def get_realtime_quote (enable : Bool) (priorityRaw : PyStr)
    (fetchers : List QuoteFetcher) (code : PyStr) : Option Quote × List QuoteEvent :=
  if !enable then (none, [])
  else if is_us_code code then
    match fetchers.find? fun f => f.name == lit "YfinanceFetcher" with
    | none => (none, [])
    | some f =>
      match f.quoteFn with
      | none => (none, [])
      | some fn =>
        let ev : QuoteEvent := ⟨lit "YfinanceFetcher", code, none⟩
        match fn code none with
        | .ok (some q) => (some q, [ev])
        | .ok none => (none, [ev])
        | .error _ => (none, [ev])
  else
    realtime_loop fetchers code (pySplit priorityRaw (lit ","))

/-- The bulk (whole-market snapshot) sources recognized by
`prefetch_realtime_quotes`. -/
def bulk_sources : List PyStr := [lit "efinance", lit "akshare_em", lit "tushare"]

/-- The parsed realtime source priority list:
`[s.strip() for s in priority.lower().split(',')]`. -/
def realtime_priority_list (priorityRaw : PyStr) : List PyStr :=
  (pySplit (pyLower priorityRaw) (lit ",")).map pyStrip

/-- `DataFetcherManager.prefetch_realtime_quotes`: skip unless realtime
quotes are enabled, a bulk source sits at position 0 or 1 of the priority
list, and at least five codes are given; otherwise issue one quote request
for the first code and report `len(codes)` when it yields a quote. -/
def prefetch_realtime_quotes (enable : Bool) (priorityRaw : PyStr)
    (fetchers : List QuoteFetcher) (codes : List PyStr) : Nat × List QuoteEvent :=
  if !enable then (0, [])
  else
    match (realtime_priority_list priorityRaw).findIdx? (fun s => bulk_sources.contains s) with
    | none => (0, [])
    | some i =>
      if 2 ≤ i then (0, [])
      else if codes.length < 5 then (0, [])
      else
        match codes with
        | [] => (0, [])
        | c :: _ =>
          let r := get_realtime_quote enable priorityRaw fetchers c
          (if r.1.isSome then codes.length else 0, r.2)

/-- Effects visible during `get_chip_distribution`: an upstream request by a
fetcher, or a circuit-breaker record on a source key. -/
inductive ChipEvent where
  | upstream (fetcher code : PyStr)
  | recordSuccess (key : PyStr)
  | recordFailure (key reason : PyStr)
deriving DecidableEq, Repr

/-- A fetcher as seen by the chip-distribution failover; `chipFn = none`
models the absence of a `get_chip_distribution` attribute.  The chip payload
type is abstract — the manager never inspects it. -/
structure ChipFetcher (χ : Type) where
  name : PyStr
  chipFn : Option (PyStr → Except PyStr (Option χ) × List ChipEvent)

/-- `AkshareFetcher.get_chip_distribution`: US and ETF codes return `None`
without touching the upstream; otherwise `ak.stock_cyq_em` is called (its
outcome is the abstract `upstream` parameter) under the method's
`try/except Exception: return None` wrapper — an upstream failure is
swallowed inside the fetcher, which returns `None` and never raises. -/
def akshare_chip_fn {χ : Type} (upstream : PyStr → Except PyStr (Option χ))
    (code : PyStr) : Except PyStr (Option χ) × List ChipEvent :=
  if is_us_code code then (.ok none, [])
  else if is_etf_code code then (.ok none, [])
  else
    match upstream code with
    | .ok r => (.ok r, [.upstream (lit "AkshareFetcher") code])
    | .error _ => (.ok none, [.upstream (lit "AkshareFetcher") code])

/-- The chip source priority list of `DataFetcherManager.get_chip_distribution`
(fetcher name, circuit-breaker source key). -/
def chip_sources : List (PyStr × PyStr) :=
  [(lit "AkshareFetcher", lit "akshare_chip"),
   (lit "TushareFetcher", lit "tushare_chip"),
   (lit "EfinanceFetcher", lit "efinance_chip")]

/-- The failover loop of `get_chip_distribution`: a source is attempted only
when the chip circuit breaker (`avail`) reports its key available; a raised
exception records a failure on that key before the next source is tried; a
non-`None` chip records a success and is returned. -/
def chip_loop {χ : Type} (avail : PyStr → Bool) (fetchers : List (ChipFetcher χ))
    (code : PyStr) : List (PyStr × PyStr) → Option χ × List ChipEvent
  | [] => (none, [])
  | (fname, key) :: rest =>
    if avail key then
      match fetchers.find? fun f => f.name == fname with
      | none => chip_loop avail fetchers code rest
      | some f =>
        match f.chipFn with
        | none => chip_loop avail fetchers code rest
        | some fn =>
          match fn code with
          | (.ok (some chip), evs) => (some chip, evs ++ [.recordSuccess key])
          | (.ok none, evs) =>
            let r := chip_loop avail fetchers code rest
            (r.1, evs ++ r.2)
          | (.error e, evs) =>
            let r := chip_loop avail fetchers code rest
            (r.1, evs ++ [.recordFailure key e] ++ r.2)
    else chip_loop avail fetchers code rest

/-- `DataFetcherManager.get_chip_distribution`: gate on the feature flag,
then run the chip failover loop.  Total by construction — every per-source
exception is caught inside the loop. -/
def get_chip_distribution {χ : Type} (enableChip : Bool) (avail : PyStr → Bool)
    (fetchers : List (ChipFetcher χ)) (code : PyStr) : Option χ × List ChipEvent :=
  if !enableChip then (none, []) else chip_loop avail fetchers code chip_sources

/-- The default fetcher set of `_init_default_fetchers`, viewed by the chip
failover: only `AkshareFetcher` defines `get_chip_distribution` among the
provided sources. -/
def standard_chip_fetchers {χ : Type} (upstream : PyStr → Except PyStr (Option χ)) :
    List (ChipFetcher χ) :=
  [⟨lit "EfinanceFetcher", none⟩,
   ⟨lit "AkshareFetcher", some (akshare_chip_fn upstream)⟩,
   ⟨lit "TushareFetcher", none⟩,
   ⟨lit "PytdxFetcher", none⟩,
   ⟨lit "BaostockFetcher", none⟩,
   ⟨lit "YfinanceFetcher", none⟩]

/-- The smart-split step of `NotificationService._send_feishu_chunked`:
split on the `\n---\n` stock separator when present, else on `\n### `
headings (re-attaching the `### ` marker); `none` means the force-chunked
fallback is used. -/
def feishu_sections (content : PyStr) : Option (List PyStr × PyStr) :=
  if isSubstr (lit "\n---\n") content then
    some (pySplit content (lit "\n---\n"), lit "\n---\n")
  else if isSubstr (lit "\n### ") content then
    match pySplit content (lit "\n### ") with
    | [] => some ([], lit "\n")
    | p :: ps => some (p :: ps.map (fun q => lit "### " ++ q), lit "\n")
  else none

/-- One step of the feishu section-accumulation loop.  State: emitted
chunks, sections of the current chunk, byte count of the current chunk. -/
def feishu_pack_step (maxBytes : Nat) (sep : PyStr)
    (st : List PyStr × List PyStr × Nat) (sec : PyStr) :
    List PyStr × List PyStr × Nat :=
  let sb := utf8Len sec + utf8Len sep
  if maxBytes < sb then
    let flushed := if st.2.1.isEmpty then st.1 else st.1 ++ [List.intercalate sep st.2.1]
    (flushed ++ [truncate_to_bytes sec ((maxBytes : Int) - 200)
       ++ lit "\n\n...(本段內容過長已截斷)"], [], 0)
  else if maxBytes < st.2.2 + sb then
    let flushed := if st.2.1.isEmpty then st.1 else st.1 ++ [List.intercalate sep st.2.1]
    (flushed, [sec], sb)
  else
    (st.1, st.2.1 ++ [sec], st.2.2 + sb)

/-- The full accumulation loop of `_send_feishu_chunked` (before pagination
markers are attached). -/
def feishu_pack (maxBytes : Nat) (sep : PyStr) (sections : List PyStr) : List PyStr :=
  let st := sections.foldl (feishu_pack_step maxBytes sep) ([], [], 0)
  if st.2.1.isEmpty then st.1 else st.1 ++ [List.intercalate sep st.2.1]

/-- One step of `_send_feishu_force_chunked`'s line accumulation. -/
def feishu_force_step (maxBytes : Nat) (st : List PyStr × PyStr) (line : PyStr) :
    List PyStr × PyStr :=
  let test := st.2 ++ (if st.2.isEmpty then [] else lit "\n") ++ line
  if ((maxBytes : Int) - 100) < (utf8Len test : Int) then
    (if st.2.isEmpty then st.1 else st.1 ++ [st.2], line)
  else (st.1, test)

/-- `_send_feishu_force_chunked`: hard line-based splitting (an overlong
single line is kept whole). -/
def feishu_force_chunks (content : PyStr) (maxBytes : Nat) : List PyStr :=
  let st := (pySplit content (lit "\n")).foldl (feishu_force_step maxBytes) ([], [])
  if st.2.isEmpty then st.1 else st.1 ++ [st.2]

/-- The feishu pagination marker appended to chunk `i` of `total`. -/
def feishu_marker (i total : Nat) : PyStr :=
  lit "\n\n📄 (" ++ natToChars i ++ lit "/" ++ natToChars total ++ lit ")"

/-- Attach `(i/N)` markers to every chunk when more than one chunk is
emitted. -/
def attach_feishu_markers (chunks : List PyStr) : List PyStr :=
  chunks.enum.map fun p =>
    if 1 < chunks.length then p.2 ++ feishu_marker (p.1 + 1) chunks.length else p.2

/-- The chunks actually posted by `NotificationService._send_feishu_chunked`
(pagination markers included). -/
def send_feishu_chunked_chunks (content : PyStr) (maxBytes : Nat) : List PyStr :=
  match feishu_sections content with
  | some (sections, sep) => attach_feishu_markers (feishu_pack maxBytes sep sections)
  | none => attach_feishu_markers (feishu_force_chunks content maxBytes)

/-- Ledger state of one task. -/
inductive TaskState where
  | running
  | completed
  | failed
deriving DecidableEq, Repr

/-- One ledger entry of `TaskService._tasks` (only the fields the claims
speak about). -/
structure TaskEntry where
  code : PyStr
  status : TaskState
deriving DecidableEq, Repr

/-- The in-process task ledger `TaskService._tasks`. -/
abbrev Ledger := List (PyStr × TaskEntry)

/-- Python dict assignment `ledger[k] = e`. -/
def ledgerSet (l : Ledger) (k : PyStr) (e : TaskEntry) : Ledger :=
  if l.any (fun p => p.1 == k) then l.map (fun p => if p.1 == k then (k, e) else p)
  else l ++ [(k, e)]

/-- Python dict lookup `ledger.get(k)`. -/
def ledgerGet (l : Ledger) (k : PyStr) : Option TaskEntry :=
  (l.find? fun p => p.1 == k).map (·.2)

/-- The task-info dictionary returned by `submit_analysis`. -/
structure SubmitInfo where
  success : Bool
  code : PyStr
  taskId : PyStr
deriving DecidableEq, Repr

/-- `TaskService.submit_analysis`: build the task id from the code and the
timestamp, push `_run_analysis` onto the executor, and return immediately —
the ledger is NOT written here (the worker writes it when it starts). -/
def TaskService.submit_analysis (ledger : Ledger) (code ts : PyStr) :
    SubmitInfo × Ledger :=
  ({ success := true, code := code, taskId := code ++ lit "_" ++ ts }, ledger)

/-- How the analysis pipeline run inside the worker ends: a non-empty
result, an empty result, or a raised exception. -/
inductive AnalysisOutcome where
  | ok
  | emptyResult
  | exn (msg : PyStr)

/-- `TaskService._run_analysis` (worker body): write the ledger entry in
state `running`, run the pipeline, then overwrite the entry with the final
state.  Returns the final ledger and the sequence of states written for
this `task_id`. -/
def TaskService.run_analysis (ledger : Ledger) (taskId code : PyStr)
    (outcome : AnalysisOutcome) : Ledger × List TaskState :=
  let l1 := ledgerSet ledger taskId ⟨code, .running⟩
  match outcome with
  | .ok => (ledgerSet l1 taskId ⟨code, .completed⟩, [.running, .completed])
  | .emptyResult => (ledgerSet l1 taskId ⟨code, .failed⟩, [.running, .failed])
  | .exn _ => (ledgerSet l1 taskId ⟨code, .failed⟩, [.running, .failed])

/-- Declarative reading of the source regex `^[A-Z]{1,5}(\.[A-Z])?$`:
one to five capital letters, optionally followed by a dot and exactly one
capital letter. -/
def usShapeP (t : PyStr) : Prop :=
  ∃ a b : PyStr, t = a ++ b ∧ 1 ≤ a.length ∧ a.length ≤ 5
    ∧ (∀ c ∈ a, isUpperLetter c = true)
    ∧ (b = [] ∨ ∃ c, isUpperLetter c = true ∧ b = ['.', c])

/-- A bulk snapshot source occurs among the first two entries of the parsed
realtime priority list. -/
def bulkTop2 (priorityRaw : PyStr) : Prop :=
  ∃ s ∈ (realtime_priority_list priorityRaw).take 2, s ∈ bulk_sources

/-- Daily fetchers for the C1 witness: priorities out of order, the
better-priority source succeeds. -/
def exDailyFetchers : List (DailyFetcher Nat) :=
  [⟨lit "AkshareFetcher", 2, .error (lit "連接超時")⟩,
   ⟨lit "EfinanceFetcher", 1, .ok [7]⟩]

/-- Daily fetchers for the C1 witness, all failing: one raises, one returns
an empty frame. -/
def exFailFetchers : List (DailyFetcher Nat) :=
  [⟨lit "EfinanceFetcher", 1, .error (lit "連接超時")⟩,
   ⟨lit "AkshareFetcher", 2, .ok []⟩]

/-- A normalized frame with two rows sharing the same date (C3). -/
def exDupRaw : List RawRow :=
  [⟨0, none, none, none, some 2, some 5, none, none⟩,
   ⟨0, none, none, none, some 3, some 6, none, none⟩]

/-- Shorthand for a cleaned candle row with only date and close varying. -/
def mkRow (d : Int) (c : ℚ) : Row :=
  { date := d, openP := none, high := none, low := none,
    close := c, volume := 1, amount := none, pct_chg := none }

/-- 21 cleaned rows whose last-20 window mean at index 20 is 10.0005,
which two-decimal rounding maps to 10 (C4). -/
def exRowsC4 : List Row :=
  [mkRow 0 10, mkRow 1 10, mkRow 2 10, mkRow 3 10, mkRow 4 10,
   mkRow 5 10, mkRow 6 10, mkRow 7 10, mkRow 8 10, mkRow 9 10,
   mkRow 10 10, mkRow 11 10, mkRow 12 10, mkRow 13 10, mkRow 14 10,
   mkRow 15 10, mkRow 16 10, mkRow 17 10, mkRow 18 10, mkRow 19 10,
   mkRow 20 10.01]

/-- A lone `YfinanceFetcher` returning a quote (C5 witness). -/
def exYfFetchers : List QuoteFetcher :=
  [⟨lit "YfinanceFetcher", some fun _ _ => .ok (some ⟨some 123⟩)⟩]

/-- A lone `EfinanceFetcher` returning a basically-valid quote (C7). -/
def exPrefetchFetchers : List QuoteFetcher :=
  [⟨lit "EfinanceFetcher", some fun _ _ => .ok (some ⟨some 10⟩)⟩]

/-- A five-element watchlist (C7). -/
def exCodes5 : List PyStr :=
  [lit "600519", lit "000001", lit "601318", lit "000002", lit "600036"]

/-- A markdown body with `\n### ` headings whose sections pack to 29 bytes
against a 30-byte budget, so the 12-byte pagination marker overflows it
(C2). -/
def exFeishuContent : PyStr := lit "AAAAAAAAAAAAAA\n### BBBBBBBBBB\n### x"

lemma find?_map_update (k : PyStr) (e : TaskEntry) (l : Ledger)
    (h : l.any (fun p => p.1 == k) = true) :
    ((l.map fun p => if p.1 == k then (k, e) else p).find? fun p => p.1 == k) = some (k, e) := by
  induction l with
  | nil => simp at h
  | cons p rest ih =>
    rw [List.map_cons]
    by_cases hp : (p.1 == k) = true
    · rw [if_pos hp]
      exact List.find?_cons_of_pos _ (beq_self_eq_true k)
    · rw [if_neg hp, @List.find?_cons_of_neg _ (fun q => q.1 == k) p _ hp]
      apply ih
      simp only [List.any_cons, Bool.or_eq_true] at h
      exact h.resolve_left hp

lemma find?_append_new (k : PyStr) (e : TaskEntry) (l : Ledger)
    (h : l.any (fun p => p.1 == k) = false) :
    ((l ++ [(k, e)]).find? fun p => p.1 == k) = some (k, e) := by
  induction l with
  | nil =>
    rw [List.nil_append]
    exact List.find?_cons_of_pos _ (beq_self_eq_true k)
  | cons p rest ih =>
    simp only [List.any_cons, Bool.or_eq_false_iff] at h
    rw [List.cons_append, @List.find?_cons_of_neg _ (fun q => q.1 == k) p _ (by simp [h.1])]
    exact ih h.2

lemma ledgerGet_ledgerSet (l : Ledger) (k : PyStr) (e : TaskEntry) :
    ledgerGet (ledgerSet l k e) k = some e := by
  unfold ledgerGet ledgerSet
  by_cases h : l.any (fun p => p.1 == k) = true
  · rw [if_pos h, find?_map_update k e l h, Option.map_some']
  · rw [if_neg h, find?_append_new k e l (eq_false_of_ne_true h), Option.map_some']

/-- C9 (amended): `submit_analysis` returns a task id of the form
`code_timestamp` but writes nothing to the ledger; the worker's
`_run_analysis` first records the entry as `running` and then overwrites it
exactly once with `completed` or `failed`, never back to `running`. -/
theorem c9_task_ledger_monotone :
    ∀ (ledger : Ledger) (code ts taskId : PyStr) (outcome : AnalysisOutcome),
      (TaskService.submit_analysis ledger code ts).2 = ledger
      ∧ (TaskService.submit_analysis ledger code ts).1.taskId = code ++ lit "_" ++ ts
      ∧ ∃ f, (TaskService.run_analysis ledger taskId code outcome).2 = [TaskState.running, f]
          ∧ f ≠ TaskState.running
          ∧ ledgerGet (TaskService.run_analysis ledger taskId code outcome).1 taskId
              = some ⟨code, f⟩ := by
  intro ledger code ts taskId outcome
  refine ⟨rfl, rfl, ?_⟩
  cases outcome with
  | ok =>
    exact ⟨.completed, rfl, by simp,
      by simp [TaskService.run_analysis, ledgerGet_ledgerSet]⟩
  | emptyResult =>
    exact ⟨.failed, rfl, by simp,
      by simp [TaskService.run_analysis, ledgerGet_ledgerSet]⟩
  | exn m =>
    exact ⟨.failed, rfl, by simp,
      by simp [TaskService.run_analysis, ledgerGet_ledgerSet]⟩

/-- C9 (counterexample): immediately after `submit_analysis` returns, the
ledger contains NO entry for the returned task id — the claim's "the task
ledger already contains an entry … in state running" fails. -/
theorem c9_counterexample_no_entry_after_submit :
    ledgerGet (TaskService.submit_analysis [] (lit "600519") (lit "20260101_093000_000001")).2
      (TaskService.submit_analysis [] (lit "600519") (lit "20260101_093000_000001")).1.taskId
      = none := by
  rfl

/-- C10: with `enable_realtime_quote` off, `get_realtime_quote` returns
`None` for every code and issues no fetcher request at all. -/
theorem c10_disabled_no_quote :
    ∀ (priorityRaw : PyStr) (fetchers : List QuoteFetcher) (code : PyStr),
      get_realtime_quote false priorityRaw fetchers code = (none, []) := by
  intro _ _ _
  rfl

/-- C3 (counterexample): a fetcher whose normalized frame carries two rows
with the same date flows through `get_daily_data` unchanged — the resulting
dates are `[0, 0]`, which is not strictly increasing. -/
theorem c3_counterexample_duplicate_dates :
    (BaseFetcher.get_daily_data (lit "AkshareFetcher") (lit "600519") exDupRaw
        (fun l => l)).map (List.map ERow.date) = .ok [0, 0]
    ∧ ¬ List.Pairwise (fun a b : Int => a < b) [0, 0] := by
  exact ⟨rfl, by decide⟩

/-- C5 (counterexample): `BRK.AB` matches the claim's regex
`^[A-Z]{1,5}(\.[A-Z]{1,2})?$` yet the source classifies it as non-US — the
source regex allows only ONE letter after the dot. -/
theorem c5_counterexample_two_letter_suffix :
    matchUsShapeSpec (lit "BRK.AB") = true ∧ is_us_code (lit "BRK.AB") = false := by
  decide

/-- C6 (counterexample): an index-shaped ticker (`399001`, the Shenzhen
Component Index) has no guard in `get_chip_distribution`: the chip upstream
is contacted and its payload is returned, so "for index tickers it returns
None" fails. -/
theorem c6_counterexample_index_not_skipped :
    get_chip_distribution (χ := Nat) true (fun _ => true)
        (standard_chip_fetchers fun _ => .ok (some 7)) (lit "399001")
      = (some 7, [ChipEvent.upstream (lit "AkshareFetcher") (lit "399001"),
                  ChipEvent.recordSuccess (lit "akshare_chip")]) := by
  decide

/-- C7 (counterexample): with priority `tencent,efinance` the preferred
(first) source is NOT a bulk snapshot source, yet `prefetch_realtime_quotes`
still issues a warm-up quote request and returns `len(codes)` — the code
accepts a bulk source at position 0 OR 1, not only position 0. -/
theorem c7_counterexample_second_slot_bulk :
    bulk_sources.contains (lit "tencent") = false
    ∧ (realtime_priority_list (lit "tencent,efinance")).head? = some (lit "tencent")
    ∧ prefetch_realtime_quotes true (lit "tencent,efinance") exPrefetchFetchers exCodes5
        = (5, [⟨lit "EfinanceFetcher", lit "600519", none⟩]) := by
  decide

/-- C2: against a configured 30-byte budget, `_send_feishu_chunked` packs
sections up to the full budget and only then appends the pagination marker,
so the first emitted chunk has 41 UTF-8 bytes — the per-chunk byte budget is
violated (the function's own docstring promises every batch stays within
the limit). -/
theorem c2_feishu_chunk_exceeds_budget :
    30 < utf8Len exFeishuContent
    ∧ (send_feishu_chunked_chunks exFeishuContent 30).map utf8Len = [41, 17]
    ∧ ((send_feishu_chunked_chunks exFeishuContent 30).any
        fun c => decide (30 < utf8Len c)) = true := by
  decide

lemma get_daily_data_go_all_fail {α : Type} (code : PyStr) (l : List (DailyFetcher α)) :
    ∀ errs : List PyStr, (∀ f ∈ l, failsOrEmptyB f = true) →
      get_daily_data_go code l errs = .error (error_summary code (errs ++ collect_errors l)) := by
  induction l with
  | nil => intro errs _; simp [get_daily_data_go, collect_errors]
  | cons f rest ih =>
    intro errs hall
    have hf := hall f (List.mem_cons_self f rest)
    cases hfetch : f.fetch with
    | ok df =>
      have hdf : df.isEmpty = true := by
        unfold failsOrEmptyB at hf
        rw [hfetch] at hf
        exact hf
      rw [show get_daily_data_go code (f :: rest) errs
            = get_daily_data_go code rest errs by
          simp [get_daily_data_go, hfetch, hdf]]
      rw [ih errs (fun g hg => hall g (List.mem_cons_of_mem f hg))]
      simp [collect_errors, List.filterMap_cons, hfetch]
    | error e =>
      rw [show get_daily_data_go code (f :: rest) errs
            = get_daily_data_go code rest
                (errs ++ [lit "[" ++ f.name ++ lit "] 失敗: " ++ e]) by
          simp [get_daily_data_go, hfetch]]
      rw [ih _ (fun g hg => hall g (List.mem_cons_of_mem f hg))]
      simp [collect_errors, List.filterMap_cons, hfetch, error_summary]

lemma get_daily_data_go_first_ok {α : Type} (code : PyStr) (l : List (DailyFetcher α)) :
    ∀ (errs : List PyStr) (i : Nat) (hi : i < l.length) (df : List α),
      (∀ j (hj : j < i), failsOrEmptyB (l.get ⟨j, hj.trans hi⟩) = true) →
      (l.get ⟨i, hi⟩).fetch = .ok df → df ≠ [] →
      get_daily_data_go code l errs = .ok (df, (l.get ⟨i, hi⟩).name) := by
  induction l with
  | nil => intro errs i hi; exact absurd hi (by simp)
  | cons f rest ih =>
    intro errs i hi df hprev hok hne
    cases i with
    | zero =>
      have hf : f.fetch = .ok df := hok
      have : df.isEmpty = false := by
        cases df with
        | nil => exact absurd rfl hne
        | cons a as => rfl
      simp [get_daily_data_go, hf, this]
    | succ i' =>
      have hf : failsOrEmptyB f = true := hprev 0 (Nat.succ_pos i')
      have hi' : i' < rest.length := Nat.lt_of_succ_lt_succ hi
      have hprev' : ∀ j (hj : j < i'), failsOrEmptyB (rest.get ⟨j, hj.trans hi'⟩) = true := by
        intro j hj
        exact hprev (j + 1) (Nat.succ_lt_succ hj)
      cases hfetch : f.fetch with
      | ok df' =>
        have hdf : df'.isEmpty = true := by
          unfold failsOrEmptyB at hf
          rw [hfetch] at hf
          exact hf
        rw [show get_daily_data_go code (f :: rest) errs
              = get_daily_data_go code rest errs by
            simp [get_daily_data_go, hfetch, hdf]]
        exact ih errs i' hi' df hprev' hok hne
      | error e =>
        rw [show get_daily_data_go code (f :: rest) errs
              = get_daily_data_go code rest
                  (errs ++ [lit "[" ++ f.name ++ lit "] 失敗: " ++ e]) by
            simp [get_daily_data_go, hfetch]]
        exact ih _ i' hi' df hprev' hok hne

/-- C1: `DataFetcherManager.get_daily_data` walks the fetchers in ascending
priority order; the first fetcher producing a non-empty frame wins (and its
name is returned); when every fetcher raises or produces an empty frame, a
single aggregated `DataFetchError` is raised whose message lists, in order,
the per-source message of every fetcher that raised. -/
theorem c1_manager_failover {α : Type} (code : PyStr) (fs : List (DailyFetcher α)) :
    List.Pairwise (fun f g : DailyFetcher α => f.priority ≤ g.priority) (sort_fetchers fs)
    ∧ (∀ (i : Nat) (hi : i < (sort_fetchers fs).length) (df : List α),
        (∀ j (hj : j < i), failsOrEmptyB ((sort_fetchers fs).get ⟨j, hj.trans hi⟩) = true) →
        ((sort_fetchers fs).get ⟨i, hi⟩).fetch = .ok df → df ≠ [] →
        DataFetcherManager.get_daily_data code fs
          = .ok (df, ((sort_fetchers fs).get ⟨i, hi⟩).name))
    ∧ ((∀ f ∈ sort_fetchers fs, failsOrEmptyB f = true) →
        DataFetcherManager.get_daily_data code fs
          = .error (error_summary code (collect_errors (sort_fetchers fs)))) := by
  refine ⟨?_, ?_, ?_⟩
  · haveI : IsTotal (DailyFetcher α) (fun f g => f.priority ≤ g.priority) :=
      ⟨fun a b => le_total a.priority b.priority⟩
    haveI : IsTrans (DailyFetcher α) (fun f g => f.priority ≤ g.priority) :=
      ⟨fun _ _ _ h1 h2 => le_trans h1 h2⟩
    exact List.sorted_insertionSort _ fs
  · intro i hi df hprev hok hne
    exact get_daily_data_go_first_ok code (sort_fetchers fs) [] i hi df hprev hok hne
  · intro hall
    rw [DataFetcherManager.get_daily_data,
      get_daily_data_go_all_fail code (sort_fetchers fs) [] hall]
    simp

/-- C1 (witness): on a concrete out-of-order fetcher list the sorted
first success is returned, and on an all-failing list the aggregated
error carries exactly the raising source's message. -/
theorem c1_manager_failover_witness :
    DataFetcherManager.get_daily_data (lit "600519") exDailyFetchers
      = .ok ([7], lit "EfinanceFetcher")
    ∧ DataFetcherManager.get_daily_data (lit "600519") exFailFetchers
      = .error (error_summary (lit "600519")
          [lit "[" ++ lit "EfinanceFetcher" ++ lit "] 失敗: " ++ lit "連接超時"]) := by
  constructor
  · have h := (c1_manager_failover (lit "600519") exDailyFetchers).2.1 0 (by decide) [7]
      (fun j hj => absurd hj (Nat.not_lt_zero j)) rfl (by decide)
    exact h
  · have h := (c1_manager_failover (lit "600519") exFailFetchers).2.2 (by decide)
    rw [h]
    rfl

lemma takeWhile_append_of_all {p : Char → Bool} (a b : PyStr)
    (ha : ∀ c ∈ a, p c = true) :
    (a ++ b).takeWhile p = a ++ b.takeWhile p := by
  induction a with
  | nil => simp
  | cons c cs ih =>
    have hc := ha c (List.mem_cons_self c cs)
    simp [List.takeWhile_cons, hc,
      ih (fun d hd => ha d (List.mem_cons_of_mem c hd))]

lemma dotSuffixOk_iff (b : PyStr) :
    dotSuffixOk b = true ↔ (b = [] ∨ ∃ c, isUpperLetter c = true ∧ b = ['.', c]) := by
  match b with
  | [] => simp [dotSuffixOk]
  | [c] => simp [dotSuffixOk]
  | c1 :: c2 :: c3 :: rest => simp [dotSuffixOk]
  | [c1, c2] =>
    constructor
    · intro h
      simp only [dotSuffixOk, List.isEmpty_cons, Bool.false_or, Bool.and_eq_true,
        decide_eq_true_eq] at h
      obtain ⟨⟨-, h0⟩, h1⟩ := h
      refine Or.inr ⟨c2, ?_, ?_⟩
      · simpa using h1
      · simp at h0
        rw [h0]
    · rintro (h | ⟨c, hc, heq⟩)
      · exact absurd h (by simp)
      · obtain ⟨h1, h2⟩ : c1 = '.' ∧ c2 = c := by
          injection heq with e1 e2
          simp_all
        subst h1
        subst h2
        simp [dotSuffixOk, hc]

lemma matchUsShape_iff (t : PyStr) : matchUsShape t = true ↔ usShapeP t := by
  constructor
  · intro h
    simp only [matchUsShape, Bool.and_eq_true, decide_eq_true_eq] at h
    obtain ⟨⟨h1, h5⟩, hsuf⟩ := h
    have hpre : t.takeWhile isUpperLetter <+: t := List.takeWhile_prefix _
    obtain ⟨r, hr⟩ := hpre
    have hrest : t.drop (t.takeWhile isUpperLetter).length = r := by
      have h2 := List.drop_left (t.takeWhile isUpperLetter) r
      rw [hr] at h2
      exact h2
    refine ⟨t.takeWhile isUpperLetter, r, hr.symm, h1, h5, ?_, ?_⟩
    · intro c hc
      exact List.mem_takeWhile_imp hc
    · rw [hrest] at hsuf
      exact (dotSuffixOk_iff r).mp hsuf
  · rintro ⟨a, b, rfl, h1, h5, hup, hshape⟩
    have htail : b.takeWhile isUpperLetter = [] := by
      rcases hshape with rfl | ⟨c, hc, rfl⟩
      · rfl
      · simp [List.takeWhile_cons, isUpperLetter]
    have htw : (a ++ b).takeWhile isUpperLetter = a := by
      rw [takeWhile_append_of_all a b hup, htail, List.append_nil]
    simp only [matchUsShape, htw, Bool.and_eq_true, decide_eq_true_eq]
    refine ⟨⟨h1, h5⟩, ?_⟩
    rw [List.drop_left]
    exact (dotSuffixOk_iff b).mpr hshape

/-- C5 (amended): a ticker is classified as US exactly when its
whitespace-stripped, uppercased form consists of 1–5 capital letters
optionally followed by a dot and exactly ONE capital letter; and for every
code so classified (realtime quotes enabled), `get_realtime_quote` queries
only the `YfinanceFetcher`, returning whatever single answer it gives and
`None` when it is absent, yields nothing, or raises. -/
theorem c5_us_classification_and_routing :
    (∀ code : PyStr, is_us_code code = true ↔ usShapeP (pyUpper (pyStrip code)))
    ∧ (∀ (priorityRaw : PyStr) (fetchers : List QuoteFetcher) (code : PyStr),
        is_us_code code = true →
        (∀ e ∈ (get_realtime_quote true priorityRaw fetchers code).2,
            e.fname = lit "YfinanceFetcher")
        ∧ ((get_realtime_quote true priorityRaw fetchers code).1.isSome →
            ∃ f fn, (fetchers.find? fun f => f.name == lit "YfinanceFetcher") = some f
              ∧ f.quoteFn = some fn
              ∧ fn code none = .ok (get_realtime_quote true priorityRaw fetchers code).1)) := by
  constructor
  · intro code
    exact matchUsShape_iff (pyUpper (pyStrip code))
  · intro rawPriority fetchers code hus
    unfold get_realtime_quote
    simp only [Bool.not_true, Bool.false_eq_true, if_false, hus, if_true]
    cases hfind : fetchers.find? fun f => f.name == lit "YfinanceFetcher" with
    | none => exact ⟨by simp, by simp⟩
    | some f =>
      cases hfn : f.quoteFn with
      | none =>
        simp only [hfn]
        exact ⟨by simp, by simp⟩
      | some fn =>
        simp only [hfn]
        cases hout : fn code none with
        | error e =>
          simp only [hout]
          refine ⟨?_, by simp⟩
          intro ev hev
          rw [List.mem_singleton] at hev
          rw [hev]
        | ok oq =>
          cases oq with
          | none =>
            simp only [hout]
            refine ⟨?_, by simp⟩
            intro ev hev
            rw [List.mem_singleton] at hev
            rw [hev]
          | some q =>
            simp only [hout]
            refine ⟨?_, fun _ => ⟨f, fn, rfl, hfn, ?_⟩⟩
            · intro ev hev
              rw [List.mem_singleton] at hev
              rw [hev]
            · rw [hout]

/-- C5 (witness): `AAPL` is classified US and its realtime quote lookup
touches only the yfinance fetcher. -/
theorem c5_us_routing_witness :
    is_us_code (lit "AAPL") = true
    ∧ ∀ e ∈ (get_realtime_quote true (lit "tencent,akshare_sina") exYfFetchers
        (lit "AAPL")).2, e.fname = lit "YfinanceFetcher" := by
  refine ⟨by decide, ?_⟩
  exact (c5_us_classification_and_routing.2 (lit "tencent,akshare_sina") exYfFetchers
    (lit "AAPL") (by decide)).1

lemma akshare_chip_skip {χ : Type} (upstream : PyStr → Except PyStr (Option χ))
    (code : PyStr) (h : is_etf_code code = true ∨ is_us_code code = true) :
    akshare_chip_fn upstream code = (.ok none, []) := by
  rcases h with h | h
  · by_cases hus : is_us_code code = true
    · simp [akshare_chip_fn, hus]
    · simp [akshare_chip_fn, hus, h]
  · simp [akshare_chip_fn, h]

/-- C6 (amended): `get_chip_distribution` is total (it returns an `Option`,
every per-source exception being caught); with the feature flag off, it
returns `None` with no upstream contact at all; ETF and US tickers return
`None` without contacting the chip upstream; a chip source is attempted
only while the chip circuit breaker reports its key available; and an
upstream chip failure is swallowed inside `AkshareFetcher` (its
`except Exception: return None`), so NOTHING is recorded on the breaker —
the manager just falls through to the remaining sources, which lack the
capability.  (Index tickers have NO dedicated guard — see the
counterexample.) -/
theorem c6_chip_gating {χ : Type} (upstream : PyStr → Except PyStr (Option χ))
    (avail : PyStr → Bool) (code : PyStr) :
    get_chip_distribution false avail (standard_chip_fetchers upstream) code = (none, [])
    ∧ ((is_etf_code code = true ∨ is_us_code code = true) →
        get_chip_distribution true avail (standard_chip_fetchers upstream) code = (none, []))
    ∧ (avail (lit "akshare_chip") = false →
        get_chip_distribution true avail (standard_chip_fetchers upstream) code = (none, []))
    ∧ (∀ msg, avail (lit "akshare_chip") = true → is_us_code code = false →
        is_etf_code code = false → upstream code = .error msg →
        get_chip_distribution true avail (standard_chip_fetchers upstream) code
          = (none, [ChipEvent.upstream (lit "AkshareFetcher") code])) := by
  refine ⟨rfl, ?_, ?_, ?_⟩
  · intro h
    have hak := akshare_chip_skip upstream code h
    by_cases h1 : avail (lit "akshare_chip") = true <;>
      by_cases h2 : avail (lit "tushare_chip") = true <;>
        by_cases h3 : avail (lit "efinance_chip") = true <;>
          simp [get_chip_distribution, chip_loop, chip_sources, standard_chip_fetchers,
            lit, List.find?, h1, h2, h3, hak]
  · intro hav
    simp only [lit] at hav
    by_cases h2 : avail (lit "tushare_chip") = true <;>
      by_cases h3 : avail (lit "efinance_chip") = true <;>
        simp [get_chip_distribution, chip_loop, chip_sources, standard_chip_fetchers,
          lit, List.find?, hav, h2, h3]
  · intro msg hav hus hetf hup
    simp only [lit] at hav
    by_cases h2 : avail (lit "tushare_chip") = true <;>
      by_cases h3 : avail (lit "efinance_chip") = true <;>
        simp [get_chip_distribution, chip_loop, chip_sources, standard_chip_fetchers,
          lit, List.find?, hav, h2, h3, akshare_chip_fn, hus, hetf, hup]

/-- C6 (witness): an ETF code yields `None` with no upstream contact, and a
failing chip upstream for a regular A-share yields `None` with one upstream
attempt and no breaker record — the fetcher swallows the error. -/
theorem c6_chip_gating_witness :
    get_chip_distribution true (fun _ => true)
        (standard_chip_fetchers (χ := Nat) fun _ => .error (lit "網絡錯誤")) (lit "510300")
      = (none, [])
    ∧ get_chip_distribution true (fun _ => true)
        (standard_chip_fetchers (χ := Nat) fun _ => .error (lit "網絡錯誤")) (lit "600519")
      = (none, [ChipEvent.upstream (lit "AkshareFetcher") (lit "600519")]) := by
  constructor
  · exact (c6_chip_gating _ _ _).2.1 (Or.inl (by decide))
  · exact (c6_chip_gating _ _ _).2.2.2 (lit "網絡錯誤") rfl (by decide) (by decide) rfl

lemma le_of_findIdx?_eq_some {α : Type} (p : α → Bool) :
    ∀ (l : List α) (n i : Nat), List.findIdx? p l n = some i → n ≤ i := by
  intro l
  induction l with
  | nil => intro n i h; simp [List.findIdx?] at h
  | cons a t ih =>
    intro n i h
    rw [List.findIdx?_cons] at h
    by_cases pa : p a = true
    · rw [if_pos pa] at h
      injection h with h
      omega
    · rw [if_neg pa] at h
      have := ih (n + 1) i h
      omega

lemma findIdx?_lt_two_iff {α : Type} (p : α → Bool) (l : List α) :
    (∃ i, l.findIdx? p = some i ∧ i < 2) ↔ ∃ x ∈ l.take 2, p x = true := by
  match l with
  | [] => simp [List.findIdx?]
  | [a] =>
    by_cases pa : p a = true
    · simp [List.findIdx?_cons, List.findIdx?, pa]
    · simp [List.findIdx?_cons, List.findIdx?, pa]
  | a :: b :: rest =>
    by_cases pa : p a = true
    · simp [List.findIdx?_cons, pa]
    · by_cases pb : p b = true
      · simp [List.findIdx?_cons, pa, pb]
      · constructor
        · rintro ⟨i, hi, hlt⟩
          rw [List.findIdx?_cons, if_neg pa, List.findIdx?_cons, if_neg pb] at hi
          have := le_of_findIdx?_eq_some p rest 2 i hi
          omega
        · rintro ⟨x, hx, hpx⟩
          simp only [List.take_succ_cons, List.take_zero, List.mem_cons,
            List.not_mem_nil, or_false] at hx
          rcases hx with rfl | rfl
          · exact absurd hpx pa
          · exact absurd hpx pb

lemma bulkTop2_iff (rawPriority : PyStr) :
    bulkTop2 rawPriority ↔ ∃ i, (realtime_priority_list rawPriority).findIdx?
      (fun s => bulk_sources.contains s) = some i ∧ i < 2 := by
  unfold bulkTop2
  rw [findIdx?_lt_two_iff]
  constructor
  · rintro ⟨s, hs, hmem⟩
    exact ⟨s, hs, List.elem_iff.mpr hmem⟩
  · rintro ⟨x, hx, hpx⟩
    exact ⟨x, hx, List.elem_iff.mp hpx⟩

/-- C7 (amended): `prefetch_realtime_quotes` is a no-op (returns 0 with no
quote request) when realtime quotes are disabled, when no bulk snapshot
source occupies position 0 OR 1 of the configured priority list, or when
fewer than five codes are given; otherwise it issues exactly one
`get_realtime_quote` call for the first code and returns `len(codes)` when
that call yields a quote, 0 when it does not. -/
theorem c7_prefetch_gating (rawPriority : PyStr) (fetchers : List QuoteFetcher)
    (codes : List PyStr) :
    (∀ e : Bool, e = false → prefetch_realtime_quotes e rawPriority fetchers codes = (0, []))
    ∧ (¬ bulkTop2 rawPriority → prefetch_realtime_quotes true rawPriority fetchers codes = (0, []))
    ∧ (codes.length < 5 → prefetch_realtime_quotes true rawPriority fetchers codes = (0, []))
    ∧ (∀ c cs, codes = c :: cs → bulkTop2 rawPriority → 5 ≤ codes.length →
        prefetch_realtime_quotes true rawPriority fetchers codes
          = (if (get_realtime_quote true rawPriority fetchers c).1.isSome
               then codes.length else 0,
             (get_realtime_quote true rawPriority fetchers c).2)) := by
  refine ⟨?_, ?_, ?_, ?_⟩
  · rintro _ rfl
    rfl
  · intro hnb
    cases hidx : (realtime_priority_list rawPriority).findIdx? (fun s => bulk_sources.contains s) with
    | none =>
      unfold prefetch_realtime_quotes
      rw [hidx]
      rfl
    | some i =>
      have hge : 2 ≤ i := by
        by_contra hc
        exact hnb ((bulkTop2_iff rawPriority).mpr ⟨i, hidx, by omega⟩)
      unfold prefetch_realtime_quotes
      rw [hidx]
      simp [hge]
  · intro hlen
    cases hidx : (realtime_priority_list rawPriority).findIdx? (fun s => bulk_sources.contains s) with
    | none =>
      unfold prefetch_realtime_quotes
      rw [hidx]
      rfl
    | some i =>
      unfold prefetch_realtime_quotes
      rw [hidx]
      by_cases h2i : 2 ≤ i
      · simp [h2i]
      · simp [h2i, hlen]
  · rintro c cs rfl hb hlen
    obtain ⟨i, hidx, hlt⟩ := (bulkTop2_iff rawPriority).mp hb
    have h2i : ¬ 2 ≤ i := by omega
    have hlen2 : ¬ (cs.length + 1 < 5) := by
      simp only [List.length_cons] at hlen
      omega
    unfold prefetch_realtime_quotes
    rw [hidx]
    simp [h2i, hlen2]

/-- C7 (witness): with `efinance` first in the priority list and five
codes, the prefetch issues one warm-up quote call for the first code and
returns 5. -/
theorem c7_prefetch_gating_witness :
    prefetch_realtime_quotes true (lit "efinance,tencent") exPrefetchFetchers exCodes5
      = (5, [⟨lit "EfinanceFetcher", lit "600519", none⟩]) := by
  have h := (c7_prefetch_gating (lit "efinance,tencent") exPrefetchFetchers exCodes5).2.2.2
    (lit "600519") [lit "000001", lit "601318", lit "000002", lit "600036"] rfl
    ⟨lit "efinance", by decide, by decide⟩ (by decide)
  rw [h]
  decide

lemma enumFrom_map_snd {α β : Type} (f : α → β) :
    ∀ (n : Nat) (l : List α), ((List.enumFrom n l).map fun p => f p.2) = l.map f := by
  intro n l
  induction l generalizing n with
  | nil => rfl
  | cons a t ih => simp [List.enumFrom, ih]

lemma calc_ind_dates (rows : List Row) :
    (calculate_indicators rows).map ERow.date = rows.map Row.date := by
  unfold calculate_indicators
  rw [List.map_map]
  exact enumFrom_map_snd (fun r => r.date) 0 rows

/-- C3 (amended): every frame returned by `BaseFetcher.get_daily_data` has
its dates sorted in ascending (non-strict) order — `_clean_data` sorts by
date but never deduplicates, so equal dates may repeat. -/
theorem c3_dates_sorted {β : Type} (name code : PyStr) (rawDf : List β)
    (normalize : List β → List RawRow) (df : List ERow)
    (h : BaseFetcher.get_daily_data name code rawDf normalize = .ok df) :
    List.Pairwise (fun a b : ERow => a.date ≤ b.date) df := by
  unfold BaseFetcher.get_daily_data at h
  by_cases he : rawDf.isEmpty
  · rw [if_pos he] at h
    exact absurd h (by simp)
  · rw [if_neg he] at h
    injection h with h
    subst h
    have hsorted : List.Pairwise (fun a b : Row => a.date ≤ b.date)
        (clean_data (normalize rawDf)) := by
      unfold clean_data
      haveI : IsTotal Row (fun a b => a.date ≤ b.date) :=
        ⟨fun a b => le_total a.date b.date⟩
      haveI : IsTrans Row (fun a b => a.date ≤ b.date) :=
        ⟨fun _ _ _ h1 h2 => le_trans h1 h2⟩
      exact List.sorted_insertionSort _ _
    have hmap : List.Pairwise (fun a b : Int => a ≤ b)
        ((calculate_indicators (clean_data (normalize rawDf))).map ERow.date) := by
      rw [calc_ind_dates]
      exact List.pairwise_map.mpr hsorted
    exact List.pairwise_map.mp hmap

/-- C3 (witness): the duplicate-date frame flows through `get_daily_data`
and its output is (weakly) sorted by date. -/
theorem c3_dates_sorted_witness :
    BaseFetcher.get_daily_data (lit "AkshareFetcher") (lit "600519") exDupRaw (fun l => l)
      = .ok (calculate_indicators (clean_data exDupRaw))
    ∧ List.Pairwise (fun a b : ERow => a.date ≤ b.date)
        (calculate_indicators (clean_data exDupRaw)) := by
  refine ⟨rfl, ?_⟩
  exact c3_dates_sorted (lit "AkshareFetcher") (lit "600519") exDupRaw (fun l => l) _ rfl

lemma calc_ind_ma20_get? (rows : List Row) (t : Nat) (h : t < rows.length) :
    ((calculate_indicators rows).map ERow.ma20).get? t
      = some (round2 (rollingMean 20 (rows.map Row.close) t)) := by
  unfold calculate_indicators
  rw [List.get?_eq_getElem?, List.getElem?_map, List.getElem?_map, List.getElem?_enum,
    List.getElem?_eq_getElem h]
  rfl

/-- C4 (amended): for every cleaned series and every index `t ≥ 20`,
`ma20[t]` equals the arithmetic mean of the twenty most recent closes
`close[t−19..t]` ROUNDED to two decimal places (half to even) — the source
applies `.round(2)` to every moving-average column. -/
theorem c4_ma20_rounded_mean (rows : List Row) (t : Nat) (h20 : 20 ≤ t)
    (hlen : t < rows.length) :
    ((calculate_indicators rows).map ERow.ma20).get? t
      = some (round2 (listMean (((rows.map Row.close).drop (t - 19)).take 20))) := by
  rw [calc_ind_ma20_get? rows t hlen]
  unfold rollingMean windowLast
  have e1 : t + 1 - 20 = t - 19 := by omega
  have e2 : t + 1 - (t + 1 - 20) = 20 := by omega
  rw [List.drop_take, e1]
  rw [show t + 1 - (t - 19) = 20 by omega]

/-- C4 (witness): the amended statement evaluated at the 21-row example and
`t = 20`. -/
theorem c4_ma20_rounded_mean_witness :
    ((calculate_indicators exRowsC4).map ERow.ma20).get? 20
      = some (round2 (listMean (((exRowsC4.map Row.close).drop (20 - 19)).take 20))) :=
  c4_ma20_rounded_mean exRowsC4 20 (by norm_num) (by decide)

/-- C4 (counterexample): at `t = 20` the stored `ma20` is 10 while the
window mean is 10.0005 — `.round(2)` makes the claim's exact-mean equation
false. -/
theorem c4_counterexample_rounding :
    ((calculate_indicators exRowsC4).map ERow.ma20).get? 20 = some 10
    ∧ listMean (((exRowsC4.map Row.close).drop 1).take 20) = 20001 / 2000
    ∧ (10 : ℚ) ≠ 20001 / 2000 := by
  have hwin : (((exRowsC4.map Row.close).drop 1).take 20)
      = [10, 10, 10, 10, 10, 10, 10, 10, 10, 10,
         10, 10, 10, 10, 10, 10, 10, 10, 10, 10.01] := rfl
  have hmean : listMean [(10 : ℚ), 10, 10, 10, 10, 10, 10, 10, 10, 10,
      10, 10, 10, 10, 10, 10, 10, 10, 10, 10.01] = 20001 / 2000 := by
    simp only [listMean, List.sum_cons, List.sum_nil, List.length_cons, List.length_nil]
    norm_num
  have hround : round2 ((20001 : ℚ) / 2000) = 10 := by
    unfold round2 roundHalfEven
    have hq : (20001 : ℚ) / 2000 * 100 = 20001 / 20 := by norm_num
    rw [hq]
    have hfl : ⌊(20001 : ℚ) / 20⌋ = 1000 := by norm_num [Int.floor_eq_iff]
    rw [hfl]
    rw [if_pos (by norm_num : (20001 : ℚ) / 20 - (1000 : ℤ) < 1 / 2)]
    norm_num
  refine ⟨?_, ?_, by norm_num⟩
  · rw [calc_ind_ma20_get? exRowsC4 20 (by decide)]
    unfold rollingMean
    rw [show windowLast 20 (exRowsC4.map Row.close) 20
          = (((exRowsC4.map Row.close).drop 1).take 20) from rfl]
    rw [hwin, hmean, hround]
  · rw [hwin, hmean]

lemma char_valid (c : Char) :
    c.toNat < 0xD800 ∨ (0xDFFF < c.toNat ∧ c.toNat < 0x110000) := by
  have h := c.valid
  rcases h with h | ⟨h1, h2⟩
  · exact Or.inl h
  · exact Or.inr ⟨h1, h2⟩

lemma utf8Encode_cons (c : Char) (s : PyStr) :
    utf8Encode (c :: s) = encCharN c.toNat ++ utf8Encode s := by
  simp [utf8Encode]

lemma utf8DecodeGo_irrel :
    ∀ (f1 : Nat) (l : List Nat) (f2 : Nat), l.length ≤ f1 → l.length ≤ f2 →
      utf8DecodeGo f1 l = utf8DecodeGo f2 l := by
  intro f1
  induction f1 with
  | zero =>
    intro l f2 h1 _
    have hl : l = [] := List.length_eq_zero.mp (Nat.le_zero.mp h1)
    subst hl
    cases f2 with
    | zero => rfl
    | succ m => rfl
  | succ n ih =>
    intro l f2 h1 h2
    cases l with
    | nil =>
      cases f2 with
      | zero => rfl
      | succ m => rfl
    | cons b0 rest =>
      cases f2 with
      | zero => simp at h2
      | succ m =>
        have hr : rest.length ≤ n := by
          simp only [List.length_cons] at h1
          omega
        have hr2 : rest.length ≤ m := by
          simp only [List.length_cons] at h2
          omega
        simp only [utf8DecodeGo]
        by_cases hb0 : b0 < 0x80
        · simp only [if_pos hb0, ih rest m hr hr2]
        · simp only [if_neg hb0]
          by_cases hb1 : b0 < 0xC2
          · simp only [if_pos hb1]
          · simp only [if_neg hb1]
            by_cases hb2 : b0 < 0xE0
            · simp only [if_pos hb2]
              cases h0 : rest[0]? with
              | none => rfl
              | some b1 =>
                by_cases hc : 0x80 ≤ b1 ∧ b1 < 0xC0
                · have hd : (rest.drop 1).length ≤ n := by
                    simp only [List.length_drop]
                    omega
                  have hd2 : (rest.drop 1).length ≤ m := by
                    simp only [List.length_drop]
                    omega
                  simp only [if_pos hc, ih (rest.drop 1) m hd hd2]
                · simp only [if_neg hc]
            · simp only [if_neg hb2]
              by_cases hb3 : b0 < 0xF0
              · simp only [if_pos hb3]
                cases h0 : rest[0]? with
                | none => rfl
                | some b1 =>
                  cases h1x : rest[1]? with
                  | none => rfl
                  | some b2 =>
                    by_cases hc : (0x80 ≤ b1 ∧ b1 < 0xC0) ∧ (0x80 ≤ b2 ∧ b2 < 0xC0)
                        ∧ (b0 = 0xE0 → 0xA0 ≤ b1) ∧ (b0 = 0xED → b1 < 0xA0)
                    · have hd : (rest.drop 2).length ≤ n := by
                        simp only [List.length_drop]
                        omega
                      have hd2 : (rest.drop 2).length ≤ m := by
                        simp only [List.length_drop]
                        omega
                      simp only [if_pos hc, ih (rest.drop 2) m hd hd2]
                    · simp only [if_neg hc]
              · simp only [if_neg hb3]
                by_cases hb4 : b0 < 0xF5
                · simp only [if_pos hb4]
                  cases h0 : rest[0]? with
                  | none => rfl
                  | some b1 =>
                    cases h1x : rest[1]? with
                    | none => rfl
                    | some b2 =>
                      cases h2x : rest[2]? with
                      | none => rfl
                      | some b3 =>
                        by_cases hc : (0x80 ≤ b1 ∧ b1 < 0xC0) ∧ (0x80 ≤ b2 ∧ b2 < 0xC0)
                            ∧ (0x80 ≤ b3 ∧ b3 < 0xC0)
                            ∧ (b0 = 0xF0 → 0x90 ≤ b1) ∧ (b0 = 0xF4 → b1 < 0x90)
                        · have hd : (rest.drop 3).length ≤ n := by
                            simp only [List.length_drop]
                            omega
                          have hd2 : (rest.drop 3).length ≤ m := by
                            simp only [List.length_drop]
                            omega
                          simp only [if_pos hc, ih (rest.drop 3) m hd hd2]
                        · simp only [if_neg hc]
                · simp only [if_neg hb4]

lemma utf8Decode_encCharN (v : Nat)
    (hv : v < 0xD800 ∨ (0xDFFF < v ∧ v < 0x110000)) (bs : List Nat) :
    utf8Decode (encCharN v ++ bs) = (utf8Decode bs).map fun s => Char.ofNat v :: s := by
  unfold encCharN
  by_cases h1 : v < 0x80
  · rw [if_pos h1]
    show utf8Decode (v :: bs) = _
    unfold utf8Decode
    simp only [List.length_cons, utf8DecodeGo]
    rw [if_pos h1]
  · rw [if_neg h1]
    by_cases h2 : v < 0x800
    · rw [if_pos h2]
      show utf8Decode ((0xC0 + v / 64) :: (0x80 + v % 64) :: bs) = _
      unfold utf8Decode
      simp only [List.length_cons, utf8DecodeGo]
      rw [if_neg (show ¬ (0xC0 + v / 64 < 0x80) by omega),
        if_neg (show ¬ (0xC0 + v / 64 < 0xC2) by omega),
        if_pos (show 0xC0 + v / 64 < 0xE0 by omega)]
      simp only [List.getElem?_cons_zero]
      rw [if_pos (show 0x80 ≤ 0x80 + v % 64 ∧ 0x80 + v % 64 < 0xC0 by omega)]
      simp only [List.drop_succ_cons, List.drop_zero]
      rw [show (0xC0 + v / 64 - 0xC0) * 64 + (0x80 + v % 64 - 0x80) = v by omega]
      rw [utf8DecodeGo_irrel (bs.length + 1) bs bs.length (by omega) le_rfl]
    · rw [if_neg h2]
      by_cases h3 : v < 0x10000
      · rw [if_pos h3]
        show utf8Decode
          ((0xE0 + v / 4096) :: (0x80 + v / 64 % 64) :: (0x80 + v % 64) :: bs) = _
        unfold utf8Decode
        simp only [List.length_cons, utf8DecodeGo]
        rw [if_neg (show ¬ (0xE0 + v / 4096 < 0x80) by omega),
          if_neg (show ¬ (0xE0 + v / 4096 < 0xC2) by omega),
          if_neg (show ¬ (0xE0 + v / 4096 < 0xE0) by omega),
          if_pos (show 0xE0 + v / 4096 < 0xF0 by omega)]
        simp only [List.getElem?_cons_zero, List.getElem?_cons_succ]
        rw [if_pos (show (0x80 ≤ 0x80 + v / 64 % 64 ∧ 0x80 + v / 64 % 64 < 0xC0)
            ∧ (0x80 ≤ 0x80 + v % 64 ∧ 0x80 + v % 64 < 0xC0)
            ∧ (0xE0 + v / 4096 = 0xE0 → 0xA0 ≤ 0x80 + v / 64 % 64)
            ∧ (0xE0 + v / 4096 = 0xED → 0x80 + v / 64 % 64 < 0xA0) by omega)]
        simp only [List.drop_succ_cons, List.drop_zero]
        rw [show (0xE0 + v / 4096 - 0xE0) * 4096 + (0x80 + v / 64 % 64 - 0x80) * 64
            + (0x80 + v % 64 - 0x80) = v by omega]
        rw [utf8DecodeGo_irrel (bs.length + 1 + 1) bs bs.length (by omega) le_rfl]
      · rw [if_neg h3]
        show utf8Decode ((0xF0 + v / 0x40000) :: (0x80 + v / 4096 % 64)
            :: (0x80 + v / 64 % 64) :: (0x80 + v % 64) :: bs) = _
        unfold utf8Decode
        simp only [List.length_cons, utf8DecodeGo]
        rw [if_neg (show ¬ (0xF0 + v / 0x40000 < 0x80) by omega),
          if_neg (show ¬ (0xF0 + v / 0x40000 < 0xC2) by omega),
          if_neg (show ¬ (0xF0 + v / 0x40000 < 0xE0) by omega),
          if_neg (show ¬ (0xF0 + v / 0x40000 < 0xF0) by omega),
          if_pos (show 0xF0 + v / 0x40000 < 0xF5 by omega)]
        simp only [List.getElem?_cons_zero, List.getElem?_cons_succ]
        rw [if_pos (show (0x80 ≤ 0x80 + v / 4096 % 64 ∧ 0x80 + v / 4096 % 64 < 0xC0)
            ∧ (0x80 ≤ 0x80 + v / 64 % 64 ∧ 0x80 + v / 64 % 64 < 0xC0)
            ∧ (0x80 ≤ 0x80 + v % 64 ∧ 0x80 + v % 64 < 0xC0)
            ∧ (0xF0 + v / 0x40000 = 0xF0 → 0x90 ≤ 0x80 + v / 4096 % 64)
            ∧ (0xF0 + v / 0x40000 = 0xF4 → 0x80 + v / 4096 % 64 < 0x90) by omega)]
        simp only [List.drop_succ_cons, List.drop_zero]
        rw [show (0xF0 + v / 0x40000 - 0xF0) * 0x40000 + (0x80 + v / 4096 % 64 - 0x80) * 4096
            + (0x80 + v / 64 % 64 - 0x80) * 64 + (0x80 + v % 64 - 0x80) = v by omega]
        rw [utf8DecodeGo_irrel (bs.length + 1 + 1 + 1) bs bs.length (by omega) le_rfl]

lemma utf8Decode_incomplete (v : Nat) (p : List Nat) (hne : p ≠ [])
    (hlt : p.length < (encCharN v).length) (hpre : p <+: encCharN v) :
    utf8Decode p = none := by
  have hp := List.prefix_iff_eq_take.mp hpre
  have hpos : 0 < p.length := List.length_pos.mpr hne
  unfold encCharN at hlt hp
  by_cases h1 : v < 0x80
  · rw [if_pos h1] at hlt
    simp only [List.length_cons, List.length_nil] at hlt
    omega
  · rw [if_neg h1] at hlt hp
    by_cases h2 : v < 0x800
    · rw [if_pos h2] at hlt hp
      simp only [List.length_cons, List.length_nil] at hlt
      have hl1 : p.length = 1 := by omega
      rw [hl1] at hp
      rw [show List.take 1 [0xC0 + v / 64, 0x80 + v % 64] = [0xC0 + v / 64] from rfl] at hp
      subst hp
      unfold utf8Decode
      simp only [List.length_cons, List.length_nil, utf8DecodeGo]
      rw [if_neg (show ¬ (0xC0 + v / 64 < 0x80) by omega),
        if_neg (show ¬ (0xC0 + v / 64 < 0xC2) by omega),
        if_pos (show 0xC0 + v / 64 < 0xE0 by omega)]
      simp only [List.getElem?_nil]
    · rw [if_neg h2] at hlt hp
      by_cases h3 : v < 0x10000
      · rw [if_pos h3] at hlt hp
        simp only [List.length_cons, List.length_nil] at hlt
        have hl : p.length = 1 ∨ p.length = 2 := by omega
        rcases hl with hl | hl
        · rw [hl] at hp
          rw [show List.take 1 [0xE0 + v / 4096, 0x80 + v / 64 % 64, 0x80 + v % 64]
              = [0xE0 + v / 4096] from rfl] at hp
          subst hp
          unfold utf8Decode
          simp only [List.length_cons, List.length_nil, utf8DecodeGo]
          rw [if_neg (show ¬ (0xE0 + v / 4096 < 0x80) by omega),
            if_neg (show ¬ (0xE0 + v / 4096 < 0xC2) by omega),
            if_neg (show ¬ (0xE0 + v / 4096 < 0xE0) by omega),
            if_pos (show 0xE0 + v / 4096 < 0xF0 by omega)]
          simp only [List.getElem?_nil]
        · rw [hl] at hp
          rw [show List.take 2 [0xE0 + v / 4096, 0x80 + v / 64 % 64, 0x80 + v % 64]
              = [0xE0 + v / 4096, 0x80 + v / 64 % 64] from rfl] at hp
          subst hp
          unfold utf8Decode
          simp only [List.length_cons, List.length_nil, utf8DecodeGo]
          rw [if_neg (show ¬ (0xE0 + v / 4096 < 0x80) by omega),
            if_neg (show ¬ (0xE0 + v / 4096 < 0xC2) by omega),
            if_neg (show ¬ (0xE0 + v / 4096 < 0xE0) by omega),
            if_pos (show 0xE0 + v / 4096 < 0xF0 by omega)]
          simp only [List.getElem?_cons_zero, List.getElem?_cons_succ, List.getElem?_nil]
      · rw [if_neg h3] at hlt hp
        simp only [List.length_cons, List.length_nil] at hlt
        have hl : p.length = 1 ∨ p.length = 2 ∨ p.length = 3 := by omega
        by_cases hb4 : 0xF0 + v / 0x40000 < 0xF5
        · rcases hl with hl | hl | hl
          · rw [hl] at hp
            rw [show List.take 1 [0xF0 + v / 0x40000, 0x80 + v / 4096 % 64,
                0x80 + v / 64 % 64, 0x80 + v % 64] = [0xF0 + v / 0x40000] from rfl] at hp
            subst hp
            unfold utf8Decode
            simp only [List.length_cons, List.length_nil, utf8DecodeGo]
            rw [if_neg (show ¬ (0xF0 + v / 0x40000 < 0x80) by omega),
              if_neg (show ¬ (0xF0 + v / 0x40000 < 0xC2) by omega),
              if_neg (show ¬ (0xF0 + v / 0x40000 < 0xE0) by omega),
              if_neg (show ¬ (0xF0 + v / 0x40000 < 0xF0) by omega),
              if_pos hb4]
            simp only [List.getElem?_nil]
          · rw [hl] at hp
            rw [show List.take 2 [0xF0 + v / 0x40000, 0x80 + v / 4096 % 64,
                0x80 + v / 64 % 64, 0x80 + v % 64]
                = [0xF0 + v / 0x40000, 0x80 + v / 4096 % 64] from rfl] at hp
            subst hp
            unfold utf8Decode
            simp only [List.length_cons, List.length_nil, utf8DecodeGo]
            rw [if_neg (show ¬ (0xF0 + v / 0x40000 < 0x80) by omega),
              if_neg (show ¬ (0xF0 + v / 0x40000 < 0xC2) by omega),
              if_neg (show ¬ (0xF0 + v / 0x40000 < 0xE0) by omega),
              if_neg (show ¬ (0xF0 + v / 0x40000 < 0xF0) by omega),
              if_pos hb4]
            simp only [List.getElem?_cons_zero, List.getElem?_cons_succ, List.getElem?_nil]
          · rw [hl] at hp
            rw [show List.take 3 [0xF0 + v / 0x40000, 0x80 + v / 4096 % 64,
                0x80 + v / 64 % 64, 0x80 + v % 64]
                = [0xF0 + v / 0x40000, 0x80 + v / 4096 % 64, 0x80 + v / 64 % 64] from rfl] at hp
            subst hp
            unfold utf8Decode
            simp only [List.length_cons, List.length_nil, utf8DecodeGo]
            rw [if_neg (show ¬ (0xF0 + v / 0x40000 < 0x80) by omega),
              if_neg (show ¬ (0xF0 + v / 0x40000 < 0xC2) by omega),
              if_neg (show ¬ (0xF0 + v / 0x40000 < 0xE0) by omega),
              if_neg (show ¬ (0xF0 + v / 0x40000 < 0xF0) by omega),
              if_pos hb4]
            simp only [List.getElem?_cons_zero, List.getElem?_cons_succ, List.getElem?_nil]
        · have hq0 : p = (0xF0 + v / 0x40000) :: p.tail := by
            rcases hl with hl | hl | hl
            all_goals
              rw [hl] at hp
              rw [hp]
              rfl
          rw [hq0]
          unfold utf8Decode
          simp only [List.length_cons, utf8DecodeGo]
          rw [if_neg (show ¬ (0xF0 + v / 0x40000 < 0x80) by omega),
            if_neg (show ¬ (0xF0 + v / 0x40000 < 0xC2) by omega),
            if_neg (show ¬ (0xF0 + v / 0x40000 < 0xE0) by omega),
            if_neg (show ¬ (0xF0 + v / 0x40000 < 0xF0) by omega),
            if_neg hb4]

lemma utf8Decode_nil_eq : utf8Decode [] = some [] := rfl

lemma utf8Decode_prefix_spec (text : PyStr) :
    ∀ (bs : List Nat) (s : PyStr),
      bs <+: utf8Encode text → utf8Decode bs = some s →
      s <+: text ∧ utf8Encode s = bs := by
  induction text with
  | nil =>
    intro bs s hpre hdec
    have hbs : bs = [] := List.prefix_nil.mp (by simpa [utf8Encode] using hpre)
    subst hbs
    rw [utf8Decode_nil_eq] at hdec
    injection hdec with hdec
    subst hdec
    exact ⟨ List.nil_prefix, rfl⟩
  | cons c t ih =>
    intro bs s hpre hdec
    have hvalid := char_valid c
    rw [utf8Encode_cons] at hpre
    by_cases hlen : (encCharN c.toNat).length ≤ bs.length
    · have h1 : bs = (encCharN c.toNat ++ utf8Encode t).take bs.length :=
        List.prefix_iff_eq_take.mp hpre
      rw [List.take_append_eq_append_take, List.take_of_length_le hlen] at h1
      rw [h1] at hdec
      rw [utf8Decode_encCharN c.toNat hvalid] at hdec
      cases hd : utf8Decode ((utf8Encode t).take (bs.length - (encCharN c.toNat).length)) with
      | none =>
        rw [hd] at hdec
        exact absurd hdec (by simp)
      | some s' =>
        rw [hd] at hdec
        simp only [Option.map_some'] at hdec
        injection hdec with hdec
        obtain ⟨hp', he'⟩ := ih _ s' ( List.take_prefix _ _) hd
        constructor
        · rw [← hdec, Char.ofNat_toNat]
          obtain ⟨r, hr⟩ := hp'
          exact ⟨r, by rw [List.cons_append, hr]⟩
        · rw [← hdec, h1]
          rw [show utf8Encode (Char.ofNat c.toNat :: s') = encCharN c.toNat ++ utf8Encode s' by
            rw [Char.ofNat_toNat, utf8Encode_cons]]
          rw [he']
    · push_neg at hlen
      by_cases hbe : bs = []
      · subst hbe
        rw [utf8Decode_nil_eq] at hdec
        injection hdec with hdec
        subst hdec
        exact ⟨ List.nil_prefix, rfl⟩
      · have h1 : bs = (encCharN c.toNat ++ utf8Encode t).take bs.length :=
          List.prefix_iff_eq_take.mp hpre
        rw [List.take_append_eq_append_take,
          show bs.length - (encCharN c.toNat).length = 0 by omega,
          List.take_zero, List.append_nil] at h1
        have hnone : utf8Decode bs = none := by
          refine utf8Decode_incomplete c.toNat bs hbe ?_ ?_
          · exact hlen
          · rw [h1]
            exact List.take_prefix _ _
        rw [hnone] at hdec
        cases hdec

lemma walkBackAux_spec (text : PyStr) :
    ∀ (fuel : Nat) (bs : List Nat), bs.length < fuel → bs <+: utf8Encode text →
      walkBackAux fuel bs <+: text
      ∧ utf8Encode (walkBackAux fuel bs) <+: bs := by
  intro fuel
  induction fuel with
  | zero =>
    intro bs h
    omega
  | succ n ih =>
    intro bs hlen hpre
    cases hd : utf8Decode bs with
    | some s =>
      obtain ⟨hp, he⟩ := utf8Decode_prefix_spec text bs s hpre hd
      have : walkBackAux (n + 1) bs = s := by
        simp only [walkBackAux, hd]
      rw [this]
      exact ⟨hp, by rw [he]⟩
    | none =>
      have hne : bs ≠ [] := by
        intro hb
        subst hb
        rw [utf8Decode_nil_eq] at hd
        cases hd
      have hlen' : bs.dropLast.length < n := by
        rw [List.length_dropLast]
        have : 0 < bs.length := List.length_pos.mpr hne
        omega
      have hpre' : bs.dropLast <+: utf8Encode text := ( List.dropLast_prefix bs).trans hpre
      obtain ⟨hp, he⟩ := ih bs.dropLast hlen' hpre'
      have : walkBackAux (n + 1) bs = walkBackAux n bs.dropLast := by
        simp only [walkBackAux, hd]
      rw [this]
      exact ⟨hp, he.trans ( List.dropLast_prefix bs)⟩

/-- C8: `_truncate_to_bytes(text, max_bytes)` (for `max_bytes ≥ 0`) returns
a prefix of `text` (never cut inside a multi-byte character — the result is
a whole-code-point prefix), its UTF-8 encoding fits in `max_bytes` bytes,
and when `text` already fits it is returned unchanged. -/
theorem c8_truncate_to_bytes (text : PyStr) (maxBytes : Int) (hmb : 0 ≤ maxBytes) :
    truncate_to_bytes text maxBytes <+: text
    ∧ ((utf8Encode (truncate_to_bytes text maxBytes)).length : Int) ≤ maxBytes
    ∧ (((utf8Encode text).length : Int) ≤ maxBytes →
        truncate_to_bytes text maxBytes = text) := by
  unfold truncate_to_bytes
  by_cases hfit : ((utf8Encode text).length : Int) ≤ maxBytes
  · rw [if_pos hfit]
    exact ⟨List.prefix_refl _, hfit, fun _ => rfl⟩
  · rw [if_neg hfit]
    have hslpre : pySliceTo (utf8Encode text) maxBytes <+: utf8Encode text := by
      unfold pySliceTo
      rw [if_pos hmb]
      exact List.take_prefix _ _
    have hsllen : ((pySliceTo (utf8Encode text) maxBytes).length : Int) ≤ maxBytes := by
      unfold pySliceTo
      rw [if_pos hmb]
      have h1 : (List.take maxBytes.toNat (utf8Encode text)).length ≤ maxBytes.toNat := by
        rw [List.length_take]
        omega
      have h2 : ((maxBytes.toNat : Nat) : Int) = maxBytes := Int.toNat_of_nonneg hmb
      omega
    obtain ⟨hp, he⟩ := walkBackAux_spec text
      ((pySliceTo (utf8Encode text) maxBytes).length + 1)
      (pySliceTo (utf8Encode text) maxBytes) (by omega) hslpre
    refine ⟨hp, ?_, fun hcontra => absurd hcontra hfit⟩
    have hlen2 := he.length_le
    omega

/-- C8 (witness): truncating `"ab€"` (5 UTF-8 bytes) to 4 bytes yields a
valid prefix within budget. -/
theorem c8_truncate_witness :
    (0 : Int) ≤ 4
    ∧ (truncate_to_bytes (lit "ab€") 4 <+: lit "ab€"
        ∧ ((utf8Encode (truncate_to_bytes (lit "ab€") 4)).length : Int) ≤ 4
        ∧ (((utf8Encode (lit "ab€")).length : Int) ≤ 4 →
            truncate_to_bytes (lit "ab€") 4 = lit "ab€")) :=
  ⟨by norm_num, c8_truncate_to_bytes (lit "ab€") 4 (by norm_num)⟩
